import Mathlib

/-!
Verification of the offline-first sync engine and due-task notification
pipeline of the dashboard PWA.

Shallow embedding conventions:
* instants (`created_at`, `updated_at`, `completed_at`, `last_notified_at`,
  queue `created_at`, SQL `timestamptz` values) are integers — the code
  compares ISO-8601 strings or `Date.getTime()` values, both of which order
  exactly like the underlying epoch instants;
* calendar dates and times of day are integers as well (only composed and
  compared, never decomposed);
* the Dexie `tasks` table, keyed by `id`, is a function `String → Option TaskRecord`;
* the Dexie `queue` and the remote Postgres tables are lists of rows;
* fallible remote calls are driven by explicit outcome oracles passed as
  function arguments.
-/

/-- Task status, `'todo' | 'done'` (src/types). -/
inductive TaskStatus
  | todo
  | done
deriving DecidableEq, Repr

/-- Task priority, `'high' | 'medium' | 'normal'` (src/types). -/
inductive TaskPriority
  | high
  | medium
  | normal
deriving DecidableEq, Repr

/-- `TaskRecord` (src/types): one task row, shared between the local Dexie
store and the remote `public.tasks` table. -/
structure TaskRecord where
  id : String
  user_id : String
  title : String
  status : TaskStatus
  priority : TaskPriority
  tags : List String
  scheduled_date : Option Int
  due_time : Option Int
  estimate_minutes : Option Int
  energy : Option String
  created_at : Int
  updated_at : Int
  completed_at : Option Int
  original_scheduled_date : Option Int
  timezone : String
  top3_slot : Option Int
  last_notified_at : Option Int
deriving DecidableEq, Repr

/-- The local Dexie `tasks` table, keyed by primary key `id`. -/
def TaskStore : Type := String → Option TaskRecord

/-- `db.tasks.put(task)`: replace the row whose primary key is `task.id`. -/
def putTask (s : TaskStore) (t : TaskRecord) : TaskStore :=
  fun i => if i = t.id then some t else s i

/-- `isIncomingNewer` (src/lib/db.ts lines 48-53): accept when there is no
current row, otherwise require a strictly greater `updated_at`. -/
def isIncomingNewer (incoming : TaskRecord) (current : Option TaskRecord) : Bool :=
  match current with
  | none => true
  | some c => decide (c.updated_at < incoming.updated_at)

/-- One iteration of the `for (const incoming of tasks)` loop of
`upsertTasksFromRemote` (src/lib/db.ts lines 93-102). -/
def storeStep (s : TaskStore) (incoming : TaskRecord) : TaskStore :=
  if isIncomingNewer incoming (s incoming.id) then putTask s incoming else s

/-- `upsertTasksFromRemote` (src/lib/db.ts lines 93-102): last-write-wins
merge of a batch of remote rows into the local store. -/
def upsertTasksFromRemote (tasks : List TaskRecord) (store : TaskStore) : TaskStore :=
  tasks.foldl storeStep store

/-- A task record with the given id and `updated_at`, used as concrete
witness data. -/
def sampleTask (id : String) (upd : Int) : TaskRecord :=
  ⟨id, "u1", "t", .todo, .normal, [], none, none, none, none, 0, upd,
    none, none, "UTC", none, none⟩

/-- A one-row local store holding `sampleTask "a" 10`. -/
def store0 : TaskStore :=
  fun i => if i = "a" then some (sampleTask "a" 10) else none

/-- Queue operation type, `'upsert_task' | 'delete_task'` (src/types). -/
inductive OpType
  | upsert_task
  | delete_task
deriving DecidableEq, Repr

/-- Queue operation payload: the full task snapshot for upserts, just the
target id for deletes. -/
inductive OpPayload
  | task (t : TaskRecord)
  | idOnly (id : String)
deriving DecidableEq, Repr

/-- `QueueOperation` (src/types): one outbox row. -/
structure QueueOperation where
  id : String
  user_id : String
  type : OpType
  task_id : String
  payload : OpPayload
  created_at : Int
  retries : Nat
deriving DecidableEq, Repr

/-- `SYNC_BATCH_SIZE` (src/lib/db.ts line 11). -/
def SYNC_BATCH_SIZE : Nat := 100

/-- `getPendingQueue` (src/lib/db.ts lines 104-105): this owner's queue rows
sorted by `created_at` ascending, truncated to `SYNC_BATCH_SIZE`. -/
def getPendingQueue (userId : String) (queue : List QueueOperation) : List QueueOperation :=
  (List.insertionSort (fun a b => a.created_at ≤ b.created_at)
    (queue.filter (fun op => decide (op.user_id = userId)))).take SYNC_BATCH_SIZE

/-- `markQueueProcessed` (src/lib/db.ts lines 107-109): delete the row with
the given primary key. -/
def markQueueProcessed (queueId : String) (queue : List QueueOperation) : List QueueOperation :=
  queue.filter (fun op => decide (op.id ≠ queueId))

/-- `bumpQueueRetry` (src/lib/db.ts lines 111-117): re-put the row with the
given primary key with `retries` incremented, leaving it otherwise as is. -/
def bumpQueueRetry (queueId : String) (queue : List QueueOperation) : List QueueOperation :=
  queue.map (fun op => if op.id = queueId then { op with retries := op.retries + 1 } else op)

/-- The `for (const operation of pending)` loop of `flushQueue`
(src/lib/sync.ts lines 39-70). `ok` tells whether the remote application of
an operation succeeds. Returns the operations actually attempted and the
resulting queue table: a success deletes the row and continues, the first
failure bumps its retry count and breaks out of the loop. -/
def flushLoop (ok : QueueOperation → Bool) :
    List QueueOperation → List QueueOperation → List QueueOperation × List QueueOperation
  | [], queue => ([], queue)
  | op :: rest, queue =>
    if ok op then
      let r := flushLoop ok rest (markQueueProcessed op.id queue)
      (op :: r.1, r.2)
    else ([op], bumpQueueRetry op.id queue)

/-- `flushQueue` (src/lib/sync.ts lines 39-70): drain this owner's pending
batch in `created_at` order. -/
def flushQueue (ok : QueueOperation → Bool) (userId : String)
    (queue : List QueueOperation) : List QueueOperation × List QueueOperation :=
  flushLoop ok (getPendingQueue userId queue) queue

/-- The local Dexie database slice touched by task writes: the `tasks` table
and the outbox `queue` table. -/
structure LocalDb where
  tasks : TaskStore
  queue : List QueueOperation

/-- `enqueueTaskUpsert` (src/lib/db.ts lines 55-65): append a fresh outbox
row whose payload is the task value passed in. -/
def enqueueTaskUpsert (freshId : String) (now : Int) (task : TaskRecord)
    (db : LocalDb) : LocalDb :=
  { db with queue := db.queue ++ [⟨freshId, task.user_id, .upsert_task, task.id, .task task, now, 0⟩] }

/-- `putTaskLocal` (src/lib/db.ts lines 79-84): write the task row and, when
requested, enqueue a matching upsert operation. -/
def putTaskLocal (freshId : String) (now : Int) (task : TaskRecord)
    (shouldQueue : Bool) (db : LocalDb) : LocalDb :=
  let db1 : LocalDb := { db with tasks := putTask db.tasks task }
  if shouldQueue then enqueueTaskUpsert freshId now task db1 else db1

/-- A queue row for witness data: an upsert of `sampleTask "a" t`. -/
def sampleOp (id : String) (t : Int) : QueueOperation :=
  ⟨id, "u1", .upsert_task, "a", .task (sampleTask "a" t), t, 0⟩

/-- A three-row queue owned by `"u1"`. -/
def queue3 : List QueueOperation :=
  [sampleOp "q1" 1, sampleOp "q2" 2, sampleOp "q3" 3]

/-- Remote outcome oracle that fails exactly the operation `"q2"`. -/
def okNotQ2 : QueueOperation → Bool := fun op => decide (op.id ≠ "q2")

instance : DecidableRel (fun a b : QueueOperation => a.created_at ≤ b.created_at) :=
  fun a b => Int.decLe a.created_at b.created_at

instance : IsTotal QueueOperation (fun a b => a.created_at ≤ b.created_at) :=
  ⟨fun a b => Int.le_total a.created_at b.created_at⟩

instance : IsTrans QueueOperation (fun a b => a.created_at ≤ b.created_at) :=
  ⟨fun _ _ _ hab hbc => le_trans hab hbc⟩

/-- A raw remote/legacy row as consumed by `normalizeTaskRecord`: every
field may be missing, `status` and `priority` are free-form strings. -/
structure RawTask where
  id : Option String
  user_id : Option String
  title : Option String
  status : Option String
  priority : Option String
  tags : Option (List String)
  scheduled_date : Option Int
  due_time : Option Int
  estimate_minutes : Option Int
  energy : Option String
  created_at : Option Int
  updated_at : Option Int
  completed_at : Option Int
  original_scheduled_date : Option Int
  timezone : Option String
  top3_slot : Option Int
  last_notified_at : Option Int
deriving DecidableEq, Repr

/-- `normalizeTaskRecord` (src/lib/sync.ts lines 16-37). `freshId` stands
for the `crypto.randomUUID()` call and `now` for `new Date()` at the call. -/
def normalizeTaskRecord (freshId : String) (now : Int) (raw : RawTask) : TaskRecord :=
  { id := raw.id.getD freshId
    user_id := raw.user_id.getD ""
    title := raw.title.getD ""
    status := if raw.status = some "done" then .done else .todo
    priority :=
      match raw.priority with
      | some "high" => .high
      | some "medium" => .medium
      | some "normal" => .normal
      | _ => .normal
    tags := raw.tags.getD []
    scheduled_date := raw.scheduled_date
    due_time := raw.due_time
    estimate_minutes := raw.estimate_minutes
    energy := raw.energy
    created_at := raw.created_at.getD now
    updated_at := raw.updated_at.getD now
    completed_at := raw.completed_at
    original_scheduled_date := raw.original_scheduled_date
    timezone := raw.timezone.getD "UTC"
    top3_slot := raw.top3_slot
    last_notified_at := raw.last_notified_at }

/-- The wire form of a task status. -/
def statusText : TaskStatus → String
  | .todo => "todo"
  | .done => "done"

/-- The wire form of a task priority. -/
def priorityText : TaskPriority → String
  | .high => "high"
  | .medium => "medium"
  | .normal => "normal"

/-- A well-typed task row as it arrives from the remote `tasks` table (all
not-null columns present). -/
def toRaw (t : TaskRecord) : RawTask :=
  ⟨some t.id, some t.user_id, some t.title, some (statusText t.status),
    some (priorityText t.priority), some t.tags, t.scheduled_date, t.due_time,
    t.estimate_minutes, t.energy, some t.created_at, some t.updated_at,
    t.completed_at, t.original_scheduled_date, some t.timezone, t.top3_slot,
    t.last_notified_at⟩

/-- `tasks_last_pull_${userId}` (src/lib/sync.ts line 14). -/
def lastPullKey (userId : String) : String := "tasks_last_pull_" ++ userId

/-- `setMetaValue` (src/lib/db.ts lines 119-121) over the `meta` table. -/
def setMetaValue (key : String) (value : Int) (meta : String → Option Int) :
    String → Option Int :=
  fun k => if k = key then some value else meta k

/-- The remote select issued by `pullUpdates` (src/lib/sync.ts lines 74-80):
rows of this owner with `updated_at` strictly above `since`, ordered by
`updated_at` ascending, capped at 1000 rows. -/
def remoteQuery (remote : List TaskRecord) (userId : String) (since : Int) :
    List TaskRecord :=
  (List.insertionSort (fun a b => a.updated_at ≤ b.updated_at)
    (remote.filter (fun t => decide (t.user_id = userId) && decide (since < t.updated_at)))).take 1000

/-- The client-side persistent state touched by `pullUpdates`: the local
`tasks` table and the `meta` table holding the per-owner pull cursor. -/
structure ClientState where
  tasks : TaskStore
  meta : String → Option Int

/-- `pullUpdates` (src/lib/sync.ts lines 72-93): select rows past the
cursor, normalize them, merge them last-write-wins, and advance the cursor
to the last row's `updated_at` when the batch is non-empty (the cursor
defaults to the epoch, instant `0`, when absent). -/
def pullUpdates (freshId : String) (now : Int) (remote : List TaskRecord)
    (userId : String) (st : ClientState) : ClientState :=
  let since := (st.meta (lastPullKey userId)).getD 0
  let normalized := (remoteQuery remote userId since).map
    (fun row => normalizeTaskRecord freshId now (toRaw row))
  let tasks1 := upsertTasksFromRemote normalized st.tasks
  match normalized.getLast? with
  | some last => ⟨tasks1, setMetaValue (lastPullKey userId) last.updated_at st.meta⟩
  | none => ⟨tasks1, st.meta⟩

instance : DecidableRel (fun a b : TaskRecord => a.updated_at ≤ b.updated_at) :=
  fun a b => Int.decLe a.updated_at b.updated_at

instance : IsTotal TaskRecord (fun a b => a.updated_at ≤ b.updated_at) :=
  ⟨fun a b => Int.le_total a.updated_at b.updated_at⟩

instance : IsTrans TaskRecord (fun a b => a.updated_at ≤ b.updated_at) :=
  ⟨fun _ _ _ hab hbc => le_trans hab hbc⟩

/-- A two-row remote table owned by `"u1"`, listed out of order. -/
def remoteC : List TaskRecord := [sampleTask "r2" 7, sampleTask "r1" 5]

/-- An empty client state: no local tasks, no cursor. -/
def st0 : ClientState := ⟨fun _ => none, fun _ => none⟩

/-- `Partial<TaskRecord>`: a patch object; `none` means the field is absent
from the patch. For nullable columns a present field carries its own
`Option` value. -/
structure TaskPatch where
  id : Option String := none
  user_id : Option String := none
  title : Option String := none
  status : Option TaskStatus := none
  priority : Option TaskPriority := none
  tags : Option (List String) := none
  scheduled_date : Option (Option Int) := none
  due_time : Option (Option Int) := none
  estimate_minutes : Option (Option Int) := none
  energy : Option (Option String) := none
  created_at : Option Int := none
  updated_at : Option Int := none
  completed_at : Option (Option Int) := none
  original_scheduled_date : Option (Option Int) := none
  timezone : Option String := none
  top3_slot : Option (Option Int) := none
  last_notified_at : Option (Option Int) := none
deriving DecidableEq, Repr

/-- The spread `{...source, ...patch}`: patched fields override the source. -/
def applyPatch (source : TaskRecord) (patch : TaskPatch) : TaskRecord :=
  { id := patch.id.getD source.id
    user_id := patch.user_id.getD source.user_id
    title := patch.title.getD source.title
    status := patch.status.getD source.status
    priority := patch.priority.getD source.priority
    tags := patch.tags.getD source.tags
    scheduled_date := patch.scheduled_date.getD source.scheduled_date
    due_time := patch.due_time.getD source.due_time
    estimate_minutes := patch.estimate_minutes.getD source.estimate_minutes
    energy := patch.energy.getD source.energy
    created_at := patch.created_at.getD source.created_at
    updated_at := patch.updated_at.getD source.updated_at
    completed_at := patch.completed_at.getD source.completed_at
    original_scheduled_date := patch.original_scheduled_date.getD source.original_scheduled_date
    timezone := patch.timezone.getD source.timezone
    top3_slot := patch.top3_slot.getD source.top3_slot
    last_notified_at := patch.last_notified_at.getD source.last_notified_at }

/-- `updateTask` (src/unnamed/part_000 lines 797-821), the record it writes:
spread the patch over the source, stamp `updated_at`, then re-derive
`completed_at` when the patch sets `status`. -/
def updateTask (now : Int) (source : TaskRecord) (patch : TaskPatch) : TaskRecord :=
  let next0 : TaskRecord := { applyPatch source patch with updated_at := now }
  let next1 : TaskRecord :=
    if patch.status = some .done
    then { next0 with completed_at := some (source.completed_at.getD now) }
    else next0
  if patch.status = some .todo then { next1 with completed_at := none } else next1

/-- The record built by `handleCreateTask` (src/unnamed/part_000 lines
839-859) and by the reading-task creation (lines 1155-1173): a fresh `todo`
task with `completed_at = null`. -/
def createTaskRecord (freshId userId title : String) (priority : TaskPriority)
    (scheduled_date : Option Int) (tz : String) (stamp : Int) : TaskRecord :=
  ⟨freshId, userId, title, .todo, priority, [], scheduled_date, none, none,
    none, stamp, stamp, none, none, tz, none, none⟩

/-- `LegacyTask` (src/types): a pre-migration localStorage task. `idNum` is
`some` exactly when the legacy id is numeric. -/
structure LegacyTask where
  idNum : Option Int
  text : Option String
  completed : Bool
  date : Option Int
  priority : Option String
  migrated : Bool
deriving DecidableEq, Repr

/-- `toLegacyTaskRecord` (src/unnamed/part_002 lines 42-66): convert a
legacy task to a `TaskRecord`; `todayDate` stands for `todayLocalDate()`. -/
def toLegacyTaskRecord (freshId : String) (now todayDate : Int)
    (legacy : LegacyTask) (userId : String) (tz : String) : TaskRecord :=
  let timestampFromId : Int :=
    match legacy.idNum with
    | some n => if 1000000000000 < n then n else now
    | none => now
  ⟨freshId, userId,
    (match legacy.text with
     | some s => if s.trim = "" then "Tâche importée" else s.trim
     | none => "Tâche importée"),
    (if legacy.completed then .done else .todo),
    (match legacy.priority with
     | some "high" => .high
     | some "medium" => .medium
     | some "normal" => .normal
     | _ => .normal),
    (if legacy.migrated then ["legacy-migrated"] else []),
    some (legacy.date.getD todayDate), none, none, none,
    timestampFromId, now,
    (if legacy.completed then some now else none),
    (if legacy.migrated then legacy.date else none),
    tz, none, none⟩

/-- The §3 data-model invariant: `completed_at` is non-null iff the task is
done. -/
def taskInv (t : TaskRecord) : Prop := t.completed_at.isSome ↔ t.status = .done

/-- The same invariant read off a raw row. -/
def rawTaskInv (r : RawTask) : Prop := r.completed_at.isSome ↔ r.status = some "done"

/-- A malformed legacy-shaped row: status `todo` yet `completed_at` set. -/
def rawViolating : RawTask :=
  ⟨none, none, none, some "todo", none, none, none, none, none, none,
    none, none, some 1, none, none, none, none⟩

/-- A patch that only marks the task done. -/
def patchDone : TaskPatch := { status := some .done }

/-- `task_due_at_utc` (migration lines 137-154): the due instant of a task,
or null when the date or time is missing. `mk` stands for
`make_timestamptz`: timezone name, calendar date and time of day to an
instant (in seconds). An empty `timezone` falls back to `'UTC'`. -/
def task_due_at_utc (mk : String → Int → Int → Int) (t : TaskRecord) : Option Int :=
  match t.scheduled_date, t.due_time with
  | some d, some tm => some (mk (if t.timezone = "" then "UTC" else t.timezone) d tm)
  | _, _ => none

/-- One row of the `get_due_tasks` result set (migration lines 157-165). -/
structure DueRow where
  id : String
  user_id : String
  title : String
  scheduled_date : Int
  due_time : Int
  timezone : String
  due_at : Int
deriving DecidableEq, Repr

/-- The projected result row of a task whose date and time are set. -/
def toDueRow (mk : String → Int → Int → Int) (t : TaskRecord) : Option DueRow :=
  match t.scheduled_date, t.due_time with
  | some d, some tm =>
      some ⟨t.id, t.user_id, t.title, d, tm, t.timezone,
        mk (if t.timezone = "" then "UTC" else t.timezone) d tm⟩
  | _, _ => none

/-- `last_notified_at is null or last_notified_at < due` (migration line 190). -/
def notifiedOk (lastNotified : Option Int) (due : Int) : Bool :=
  match lastNotified with
  | none => true
  | some n => decide (n < due)

/-- `get_due_tasks` (migration lines 156-192): the `todo` tasks with a due
instant in `[now, now + greatest(window_minutes, 1) minutes)` not yet
notified for that instant, ordered by due instant ascending. A minute is 60
(seconds). -/
def get_due_tasks (mk : String → Int → Int → Int) (now window_minutes : Int)
    (tasks : List TaskRecord) : List DueRow :=
  let endAt := now + 60 * max window_minutes 1
  List.insertionSort (fun a b => a.due_at ≤ b.due_at)
    (tasks.filterMap (fun t =>
      match toDueRow mk t with
      | none => none
      | some row =>
        if decide (t.status = .todo) && decide (now ≤ row.due_at)
            && decide (row.due_at < endAt) && notifiedOk t.last_notified_at row.due_at
        then some row else none))

/-- `mark_tasks_notified` (migration lines 194-204): set `last_notified_at`
and `updated_at` to `now()` on exactly the given ids. -/
def mark_tasks_notified (now : Int) (task_ids : List String)
    (tasks : List TaskRecord) : List TaskRecord :=
  tasks.map (fun t =>
    if t.id ∈ task_ids
    then { t with last_notified_at := some now, updated_at := now }
    else t)

/-- The result of the JavaScript `Number(...)` coercion of the `window`
query parameter: a finite value, or a non-finite one (`NaN`, `±Infinity`). -/
inductive JsNum
  | finite (n : Int)
  | notFinite
deriving DecidableEq, Repr

/-- The window argument the handler passes to `get_due_tasks`
(api/cron/dispatch-due.ts lines 54-58): `Number(request.query.window ?? 5)`,
with 5 substituted when `Number.isFinite` fails. -/
def resolveWindow : Option JsNum → Int
  | none => 5
  | some (.finite n) => n
  | some .notFinite => 5

/-- A `todo` task due at instant 1030 under `mkUTC`. -/
def taskDue : TaskRecord :=
  ⟨"d1", "u1", "t", .todo, .normal, [], some 1000, some 30, none, none, 0, 0,
    none, none, "UTC", none, none⟩

/-- A concrete composition function for witnesses: date plus time of day. -/
def mkUTC : String → Int → Int → Int := fun _ d tm => d + tm

instance : DecidableRel (fun a b : DueRow => a.due_at ≤ b.due_at) :=
  fun a b => Int.decLe a.due_at b.due_at

instance : IsTotal DueRow (fun a b => a.due_at ≤ b.due_at) :=
  ⟨fun a b => Int.le_total a.due_at b.due_at⟩

instance : IsTrans DueRow (fun a b => a.due_at ≤ b.due_at) :=
  ⟨fun _ _ _ hab hbc => le_trans hab hbc⟩

/-- One row of `push_subscriptions` as selected by the handler
(api/cron/dispatch-due.ts lines 16-22). -/
structure SubscriptionRow where
  id : String
  user_id : String
  endpoint : String
  p256dh : String
  auth : String
deriving DecidableEq, Repr

/-- The outcome of one `sendWebPush` call: success, a failure whose status
code is 404 or 410 (endpoint gone), or any other failure. -/
inductive PushOutcome
  | ok
  | failGone
  | failOther
deriving DecidableEq, Repr

/-- One observable side effect of the cron handler, in issue order. -/
inductive CronEffect
  | queryDueTasks (window : Int)
  | querySubscriptions (userIds : List String)
  | webPush (taskId : String) (subId : String)
  | deleteSubscription (subId : String)
  | markNotified (ids : List String)
deriving DecidableEq, Repr

/-- `Set.add` insertion order semantics of a JavaScript `Set<string>`. -/
def jsSetAdd (s : List String) (x : String) : List String :=
  if x ∈ s then s else s ++ [x]

/-- The accumulator of the dispatch loop (api/cron/dispatch-due.ts lines
87-126): the effect trace, `sentTaskIds` and `sentCount`. -/
structure DispatchState where
  effects : List CronEffect
  sentTaskIds : List String
  sentCount : Nat
deriving DecidableEq, Repr

/-- One `sendWebPush` attempt of the inner subscription loop (lines
98-121): the push is attempted, a success bumps `sentCount`, a gone-failure
deletes the subscription row, any other failure does nothing more. -/
def pushSub (send : SubscriptionRow → DueRow → PushOutcome) (task : DueRow)
    (st : DispatchState) (sub : SubscriptionRow) : DispatchState :=
  match send sub task with
  | .ok =>
      { st with
        effects := st.effects ++ [.webPush task.id sub.id]
        sentCount := st.sentCount + 1 }
  | .failGone =>
      { st with
        effects := st.effects ++ [.webPush task.id sub.id, .deleteSubscription sub.id] }
  | .failOther =>
      { st with effects := st.effects ++ [.webPush task.id sub.id] }

/-- One iteration of the outer `for (const task of due)` loop (lines
90-126): skip owners without subscriptions, attempt every subscription, and
record the task as sent when at least one attempt succeeded. -/
def processDueTask (send : SubscriptionRow → DueRow → PushOutcome)
    (byUser : String → List SubscriptionRow) (st : DispatchState) (task : DueRow) :
    DispatchState :=
  let subs := byUser task.user_id
  if subs.isEmpty then st
  else
    let st1 := subs.foldl (pushSub send task) st
    if subs.any (fun sub => decide (send sub task = .ok))
    then { st1 with sentTaskIds := jsSetAdd st1.sentTaskIds task.id }
    else st1

/-- The whole dispatch loop over the due batch. -/
def dispatchDue (send : SubscriptionRow → DueRow → PushOutcome)
    (byUser : String → List SubscriptionRow) (due : List DueRow) : DispatchState :=
  due.foldl (processDueTask send byUser) ⟨[], [], 0⟩

/-- JavaScript truthiness of an optional header string. -/
def jsTruthy : Option String → Bool
  | none => false
  | some s => decide (s ≠ "")

/-- `String.prototype.replace` with a plain-string pattern: replace the
first occurrence only. -/
def jsReplaceFirst (s pat : String) : String :=
  match s.splitOn pat with
  | [] => s
  | x :: rest => x ++ String.intercalate pat rest

/-- The request data the handler looks at. -/
structure CronRequest where
  xVercelCron : Option String
  authorization : Option String
  queryWindow : Option JsNum
deriving DecidableEq, Repr

/-- `canRun` (api/cron/dispatch-due.ts lines 24-36): accept when the
`x-vercel-cron` header is truthy; otherwise accept everything when no
secret is configured (`optionalEnv` falsy), else compare the authorization
header, with a leading `Bearer `-prefix stripped, against the secret. -/
def canRun (cronSecret : Option String) (req : CronRequest) : Bool :=
  if jsTruthy req.xVercelCron then true
  else
    match cronSecret with
    | none => true
    | some s =>
      if s = "" then true
      else
        match req.authorization with
        | none => false
        | some a => decide (jsReplaceFirst a "Bearer " = s)

/-- The `byUser` map built by the handler (api/cron/dispatch-due.ts lines
80-85): the subscription rows of one owner, in fetch order. -/
def byUserOf (subs : List SubscriptionRow) : String → List SubscriptionRow :=
  fun uid => subs.filter (fun sub => decide (sub.user_id = uid))

/-- `handler` (api/cron/dispatch-due.ts lines 47-148): status code, effect
trace, and the resulting remote `tasks` table. `send` is the push-transport
oracle, `due` the result set of `get_due_tasks`, `subs` the subscription
rows of the due owners, `now` the dispatch instant used by
`mark_tasks_notified`. -/
def cronHandler (cronSecret : Option String) (req : CronRequest)
    (send : SubscriptionRow → DueRow → PushOutcome) (due : List DueRow)
    (subs : List SubscriptionRow) (now : Int) (tasks : List TaskRecord) :
    Nat × List CronEffect × List TaskRecord :=
  if canRun cronSecret req = false then (401, [], tasks)
  else
    let w := resolveWindow req.queryWindow
    if due.isEmpty then (200, [.queryDueTasks w], tasks)
    else
      let userIds := (due.map (fun t => t.user_id)).foldl jsSetAdd []
      let st := dispatchDue send (byUserOf subs) due
      if st.sentTaskIds.isEmpty then
        (200, [CronEffect.queryDueTasks w, .querySubscriptions userIds] ++ st.effects, tasks)
      else
        (200, [CronEffect.queryDueTasks w, .querySubscriptions userIds] ++ st.effects
            ++ [.markNotified st.sentTaskIds],
          mark_tasks_notified now st.sentTaskIds tasks)

/-- Whether an effect is a `mark_tasks_notified` call. -/
def isMarkEffect : CronEffect → Bool
  | .markNotified _ => true
  | _ => false

/-- Two subscriptions of owner `"u1"`. -/
def subA : SubscriptionRow := ⟨"sA", "u1", "epA", "k1", "k2"⟩

/-- See `subA`. -/
def subB : SubscriptionRow := ⟨"sB", "u1", "epB", "k1", "k2"⟩

/-- A transport oracle: endpoint `"sA"` is gone, everything else succeeds. -/
def sendGoneA : SubscriptionRow → DueRow → PushOutcome :=
  fun sub _ => if sub.id = "sA" then .failGone else .ok

/-- A request carrying the scheduler-origin marker. -/
def reqCron : CronRequest := ⟨some "1", none, none⟩

/-- A request with no scheduler marker and no authorization header. -/
def reqBare : CronRequest := ⟨none, none, none⟩

/-- The due row of `taskDue` under `mkUTC`. -/
def rowD : DueRow := ⟨"d1", "u1", "t", 1000, 30, "UTC", 1030⟩

/-- The App component state consulted by the sync triggers
(src/unnamed/part_000): configuration and connectivity flags, the
effect-scope `cancelled` flag, the `syncInProgress` React state, and the
number of `syncNow` calls currently awaiting completion (observable in the
model, not stored by the code). -/
structure UiState where
  hasConfig : Bool
  isOnline : Bool
  cancelled : Bool
  syncInProgress : Bool
  inFlightSyncs : Nat
deriving DecidableEq, Repr

/-- The sync trigger sources (part_000 lines 515-565; manual button at
line 1299). -/
inductive SyncTrigger
  | timerTick
  | onlineEvent
  | changeFeed
  | userClick
deriving DecidableEq, Repr

/-- An event of the single-threaded event loop: a trigger firing between
await points, or an in-flight `syncNow` resolving. -/
inductive UiEvent
  | trigger (t : SyncTrigger)
  | syncCompletes
deriving DecidableEq, Repr

/-- The entry of `fireSync` (part_000 lines 495-513): bail out unless the
client is configured and online, otherwise set `syncInProgress` and start a
`syncNow`. The in-progress flag is not consulted. -/
def fireSyncStart (st : UiState) : UiState :=
  if st.hasConfig && st.isOnline then
    { st with syncInProgress := true, inFlightSyncs := st.inFlightSyncs + 1 }
  else st

/-- The guard each trigger applies before calling `fireSync` (part_000
lines 539-557): the interval and online listeners check only `cancelled`,
the change-feed callback also checks `isOnline`, and the manual button is
disabled while `syncInProgress` (line 1300). -/
def triggerGuard (st : UiState) : SyncTrigger → Bool
  | .timerTick => !st.cancelled
  | .onlineEvent => !st.cancelled
  | .changeFeed => !st.cancelled && st.isOnline
  | .userClick => !st.syncInProgress

/-- One event-loop step: a guarded trigger may start a sync; a completing
`syncNow` runs the `finally` block, clearing `syncInProgress`. -/
def uiStep (st : UiState) : UiEvent → UiState
  | .trigger t => if triggerGuard st t then fireSyncStart st else st
  | .syncCompletes =>
      { st with syncInProgress := false, inFlightSyncs := st.inFlightSyncs - 1 }

/-- Run a sequence of event-loop events. -/
def uiRun (st : UiState) (evs : List UiEvent) : UiState := evs.foldl uiStep st

/-- A configured, online, idle client with no sync in flight. -/
def uiIdle : UiState := ⟨true, true, false, false, 0⟩

-- ### Theorems

theorem storeStep_mono (s : TaskStore) (t : TaskRecord) (i : String) (c : TaskRecord)
    (h : s i = some c) :
    ∃ c', storeStep s t i = some c' ∧ c.updated_at ≤ c'.updated_at := by
  unfold storeStep
  by_cases hn : isIncomingNewer t (s t.id) = true
  · rw [if_pos hn]
    unfold putTask
    by_cases hi : i = t.id
    · subst hi
      rw [h] at hn
      unfold isIncomingNewer at hn
      simp only [decide_eq_true_eq] at hn
      exact ⟨t, by simp, le_of_lt hn⟩
    · exact ⟨c, by simp [hi, h], le_refl _⟩
  · rw [if_neg hn]
    exact ⟨c, h, le_refl _⟩

theorem upsert_mono (ts : List TaskRecord) :
    ∀ (s : TaskStore) (i : String) (c : TaskRecord), s i = some c →
      ∃ c', upsertTasksFromRemote ts s i = some c' ∧ c.updated_at ≤ c'.updated_at := by
  induction ts with
  | nil => exact fun s i c h => ⟨c, h, le_refl _⟩
  | cons a rest ih =>
    intro s i c h
    obtain ⟨c1, h1, hle1⟩ := storeStep_mono s a i c h
    obtain ⟨c2, h2, hle2⟩ := ih (storeStep s a) i c1 h1
    exact ⟨c2, h2, le_trans hle1 hle2⟩

theorem upsert_covers (ts : List TaskRecord) :
    ∀ (s : TaskStore) (t : TaskRecord), t ∈ ts →
      ∃ c, upsertTasksFromRemote ts s t.id = some c ∧ t.updated_at ≤ c.updated_at := by
  induction ts with
  | nil => intro s t h; cases h
  | cons a rest ih =>
    intro s t h
    rcases List.mem_cons.mp h with rfl | hmem
    · have hstep : ∃ c, storeStep s t t.id = some c ∧ t.updated_at ≤ c.updated_at := by
        unfold storeStep
        by_cases hn : isIncomingNewer t (s t.id) = true
        · rw [if_pos hn]
          exact ⟨t, by simp [putTask], le_refl _⟩
        · rw [if_neg hn]
          unfold isIncomingNewer at hn
          cases hcur : s t.id with
          | none => rw [hcur] at hn; simp at hn
          | some c =>
            rw [hcur] at hn
            simp only [decide_eq_true_eq] at hn
            exact ⟨c, rfl, le_of_not_lt hn⟩
      obtain ⟨c1, h1, hle1⟩ := hstep
      obtain ⟨c2, h2, hle2⟩ := upsert_mono rest (storeStep s t) t.id c1 h1
      exact ⟨c2, h2, le_trans hle1 hle2⟩
    · exact ih (storeStep s a) t hmem

theorem storeStep_noop (s : TaskStore) (t : TaskRecord) (c : TaskRecord)
    (hc : s t.id = some c) (hle : t.updated_at ≤ c.updated_at) :
    storeStep s t = s := by
  unfold storeStep
  rw [if_neg]
  unfold isIncomingNewer
  rw [hc]
  simp only [decide_eq_true_eq]
  exact not_lt_of_le hle

theorem upsert_noop (ts : List TaskRecord) :
    ∀ (s : TaskStore),
      (∀ t ∈ ts, ∃ c, s t.id = some c ∧ t.updated_at ≤ c.updated_at) →
      upsertTasksFromRemote ts s = s := by
  induction ts with
  | nil => intro s _; rfl
  | cons a rest ih =>
    intro s h
    obtain ⟨c, hc, hle⟩ := h a (List.mem_cons_self a rest)
    have hstep : storeStep s a = s := storeStep_noop s a c hc hle
    show upsertTasksFromRemote rest (storeStep s a) = s
    rw [hstep]
    exact ih s (fun t ht => h t (List.mem_cons_of_mem a ht))

/-- Claim C1: merging an incoming task replaces the stored record iff the
incoming `updated_at` is strictly greater than the current one (a tie keeps
the existing record), absence of a current record always accepts the
incoming record, other keys are untouched, and merging the same incoming
snapshot a second time leaves the store unchanged. -/
theorem claim_C1_last_write_wins (store : TaskStore) (inc : TaskRecord) :
    (∀ c, store inc.id = some c → c.updated_at < inc.updated_at →
        upsertTasksFromRemote [inc] store inc.id = some inc)
    ∧ (∀ c, store inc.id = some c → ¬ c.updated_at < inc.updated_at →
        upsertTasksFromRemote [inc] store inc.id = some c)
    ∧ (store inc.id = none → upsertTasksFromRemote [inc] store inc.id = some inc)
    ∧ (∀ j, j ≠ inc.id → upsertTasksFromRemote [inc] store j = store j)
    ∧ (∀ (ts : List TaskRecord) (s : TaskStore),
        upsertTasksFromRemote ts (upsertTasksFromRemote ts s) = upsertTasksFromRemote ts s) := by
  refine ⟨?_, ?_, ?_, ?_, ?_⟩
  · intro c hc hlt
    show storeStep store inc inc.id = some inc
    unfold storeStep isIncomingNewer
    rw [hc]
    simp [hlt, putTask]
  · intro c hc hnlt
    show storeStep store inc inc.id = some c
    unfold storeStep isIncomingNewer
    rw [hc]
    simp [hnlt, hc]
  · intro hc
    show storeStep store inc inc.id = some inc
    unfold storeStep isIncomingNewer
    rw [hc]
    simp [putTask]
  · intro j hj
    show storeStep store inc j = store j
    unfold storeStep
    by_cases hn : isIncomingNewer inc (store inc.id) = true
    · rw [if_pos hn]; unfold putTask; rw [if_neg hj]
    · rw [if_neg hn]
  · intro ts s
    exact upsert_noop ts (upsertTasksFromRemote ts s)
      (fun t ht => upsert_covers ts s t ht)

theorem claim_C1_last_write_wins_witness :
    upsertTasksFromRemote [sampleTask "a" 11] store0 "a" = some (sampleTask "a" 11)
    ∧ upsertTasksFromRemote [sampleTask "a" 10] store0 "a" = some (sampleTask "a" 10)
    ∧ upsertTasksFromRemote [sampleTask "b" 3] store0 "b" = some (sampleTask "b" 3)
    ∧ upsertTasksFromRemote [sampleTask "a" 11] store0 "zzz" = store0 "zzz" :=
  ⟨(claim_C1_last_write_wins store0 (sampleTask "a" 11)).1 (sampleTask "a" 10) rfl (by decide),
   (claim_C1_last_write_wins store0 (sampleTask "a" 10)).2.1 (sampleTask "a" 10) rfl (by decide),
   (claim_C1_last_write_wins store0 (sampleTask "b" 3)).2.2.1 rfl,
   (claim_C1_last_write_wins store0 (sampleTask "a" 11)).2.2.2.1 "zzz" (by decide)⟩

theorem flushLoop_fst (ok : QueueOperation → Bool) (pend : List QueueOperation) :
    ∀ queue : List QueueOperation,
      (flushLoop ok pend queue).1 =
        (match pend.dropWhile ok with
         | [] => pend
         | f :: _ => pend.takeWhile ok ++ [f]) := by
  induction pend with
  | nil => intro queue; rfl
  | cons op rest ih =>
    intro queue
    by_cases hok : ok op = true
    · simp only [flushLoop, hok, if_true, List.dropWhile_cons, List.takeWhile_cons, ih]
      cases hdrop : rest.dropWhile ok with
      | nil => simp
      | cons f tail => simp
    · simp only [flushLoop, hok, Bool.false_eq_true, if_false, List.dropWhile_cons,
        List.takeWhile_cons]
      simp [hok]

theorem flushLoop_snd (ok : QueueOperation → Bool) (pend : List QueueOperation) :
    ∀ queue : List QueueOperation,
      (flushLoop ok pend queue).2 =
        (match pend.dropWhile ok with
         | [] =>
            queue.filter (fun q => decide (q.id ∉ (pend.takeWhile ok).map (fun p => p.id)))
         | f :: _ => bumpQueueRetry f.id
            (queue.filter (fun q => decide (q.id ∉ (pend.takeWhile ok).map (fun p => p.id))))) := by
  induction pend with
  | nil =>
    intro queue
    simp [flushLoop]
  | cons op rest ih =>
    intro queue
    by_cases hok : ok op = true
    · have hfuse :
          (markQueueProcessed op.id queue).filter
              (fun q => decide (q.id ∉ (rest.takeWhile ok).map (fun p => p.id)))
            = queue.filter
              (fun q => decide (q.id ∉ ((op :: rest).takeWhile ok).map (fun p => p.id))) := by
        unfold markQueueProcessed
        rw [List.filter_filter]
        apply List.filter_congr
        intro q _
        simp only [List.takeWhile_cons, hok, if_true, List.map_cons, List.mem_cons, not_or]
        by_cases h1 : q.id = op.id <;> by_cases h2 : q.id ∈ (rest.takeWhile ok).map (fun p => p.id)
          <;> simp [h1, h2]
      simp only [flushLoop, hok, if_true, List.dropWhile_cons, ih, hfuse]
    · simp only [flushLoop, hok, Bool.false_eq_true, if_false, List.dropWhile_cons,
        List.takeWhile_cons]
      simp [hok]

theorem pending_subset (userId : String) (queue : List QueueOperation) :
    ∀ op ∈ getPendingQueue userId queue, op ∈ queue ∧ op.user_id = userId := by
  intro op hop
  unfold getPendingQueue at hop
  have h1 := List.mem_of_mem_take hop
  have h2 : op ∈ queue.filter (fun op => decide (op.user_id = userId)) :=
    (List.mem_insertionSort (fun a b : QueueOperation => a.created_at ≤ b.created_at)).mp h1
  have h3 := List.mem_filter.mp h2
  exact ⟨h3.1, by simpa using h3.2⟩

theorem pending_ids_nodup (userId : String) (queue : List QueueOperation)
    (hids : (queue.map (fun op => op.id)).Nodup) :
    ((getPendingQueue userId queue).map (fun op => op.id)).Nodup := by
  unfold getPendingQueue
  have hfilter : ((queue.filter (fun op => decide (op.user_id = userId))).map
      (fun op => op.id)).Nodup :=
    List.Nodup.sublist (List.Sublist.map (fun op => op.id) (List.filter_sublist queue)) hids
  have hperm := List.perm_insertionSort (fun a b : QueueOperation => a.created_at ≤ b.created_at)
    (queue.filter (fun op => decide (op.user_id = userId)))
  have hsort : ((List.insertionSort (fun a b : QueueOperation => a.created_at ≤ b.created_at)
      (queue.filter (fun op => decide (op.user_id = userId)))).map (fun op => op.id)).Nodup :=
    ((hperm.map (fun op => op.id)).nodup_iff).mpr hfilter
  exact List.Nodup.sublist
    (List.Sublist.map (fun op : QueueOperation => op.id) (List.take_sublist SYNC_BATCH_SIZE _)) hsort

/-- Claim C2: a flush processes this owner's pending operations in ascending
enqueue-time order, at most `SYNC_BATCH_SIZE` of them; at the first failing
operation the batch stops: every operation that succeeded before it is
deleted, the failing operation is re-queued with its retry count incremented
by one and otherwise unchanged, and every other queue row — in particular
every later pending operation, which is never attempted — is left untouched. -/
theorem claim_C2_flush_first_failure (ok : QueueOperation → Bool) (userId : String)
    (queue : List QueueOperation) (hids : (queue.map (fun op => op.id)).Nodup) :
    List.Sorted (fun a b : QueueOperation => a.created_at ≤ b.created_at)
      (getPendingQueue userId queue)
    ∧ (getPendingQueue userId queue).length ≤ SYNC_BATCH_SIZE
    ∧ (∀ op ∈ getPendingQueue userId queue, op.user_id = userId)
    ∧ (flushQueue ok userId queue).1 =
        (match (getPendingQueue userId queue).dropWhile ok with
         | [] => getPendingQueue userId queue
         | f :: _ => (getPendingQueue userId queue).takeWhile ok ++ [f])
    ∧ (∀ op ∈ queue,
        op.id ∈ ((getPendingQueue userId queue).takeWhile ok).map (fun p => p.id) →
        ∀ q ∈ (flushQueue ok userId queue).2, q.id ≠ op.id)
    ∧ (∀ f rest, (getPendingQueue userId queue).dropWhile ok = f :: rest →
        { f with retries := f.retries + 1 } ∈ (flushQueue ok userId queue).2
        ∧ ∀ q ∈ (flushQueue ok userId queue).2, q.id = f.id →
            q = { f with retries := f.retries + 1 })
    ∧ (∀ op ∈ queue,
        op.id ∉ ((getPendingQueue userId queue).takeWhile ok).map (fun p => p.id) →
        (∀ f rest, (getPendingQueue userId queue).dropWhile ok = f :: rest → op.id ≠ f.id) →
        op ∈ (flushQueue ok userId queue).2) := by
  have hsnd := flushLoop_snd ok (getPendingQueue userId queue) queue
  refine ⟨?_, ?_, ?_, flushLoop_fst ok (getPendingQueue userId queue) queue, ?_, ?_, ?_⟩
  · exact List.Pairwise.sublist (List.take_sublist SYNC_BATCH_SIZE _)
      (List.sorted_insertionSort (fun a b : QueueOperation => a.created_at ≤ b.created_at) _)
  · exact List.length_take_le SYNC_BATCH_SIZE _
  · exact fun op hop => (pending_subset userId queue op hop).2
  · intro op _ hopid q hq hqid
    unfold flushQueue at hq
    rw [hsnd] at hq
    cases hdrop : (getPendingQueue userId queue).dropWhile ok with
    | nil =>
      rw [hdrop] at hq
      have := (List.mem_filter.mp hq).2
      simp only [decide_eq_true_eq] at this
      exact this (hqid ▸ hopid)
    | cons f tail =>
      rw [hdrop] at hq
      unfold bumpQueueRetry at hq
      obtain ⟨q0, hq0, hgq⟩ := List.mem_map.mp hq
      have hq0id : q0.id ∉ ((getPendingQueue userId queue).takeWhile ok).map (fun p => p.id) := by
        have := (List.mem_filter.mp hq0).2
        simpa using this
      have hqid0 : q.id = q0.id := by
        by_cases h : q0.id = f.id
        · rw [← hgq, if_pos h]
        · rw [← hgq, if_neg h]
      exact hq0id (hqid0 ▸ hqid ▸ hopid)
  · intro f rest hdrop
    have hfpend : f ∈ getPendingQueue userId queue := by
      have : f ∈ (getPendingQueue userId queue).dropWhile ok := by
        rw [hdrop]; exact List.mem_cons_self f rest
      have happ := List.takeWhile_append_dropWhile ok (getPendingQueue userId queue)
      rw [← happ]
      exact List.mem_append_right _ this
    have hfq : f ∈ queue := (pending_subset userId queue f hfpend).1
    have hfid : f.id ∉ ((getPendingQueue userId queue).takeWhile ok).map (fun p => p.id) := by
      have hnd := pending_ids_nodup userId queue hids
      have happ := List.takeWhile_append_dropWhile ok (getPendingQueue userId queue)
      rw [← happ, List.map_append] at hnd
      have hdisj := List.disjoint_of_nodup_append hnd
      intro hmem
      apply hdisj hmem
      rw [hdrop]
      exact List.mem_cons_self _ _
    have hfbase : f ∈ queue.filter
        (fun q => decide (q.id ∉ ((getPendingQueue userId queue).takeWhile ok).map
          (fun p => p.id))) :=
      List.mem_filter.mpr ⟨hfq, by simpa using hfid⟩
    constructor
    · unfold flushQueue
      rw [hsnd, hdrop]
      unfold bumpQueueRetry
      refine List.mem_map.mpr ⟨f, hfbase, ?_⟩
      rw [if_pos rfl]
    · intro q hq hqid
      unfold flushQueue at hq
      rw [hsnd, hdrop] at hq
      unfold bumpQueueRetry at hq
      obtain ⟨q0, hq0, hgq⟩ := List.mem_map.mp hq
      have hq0queue : q0 ∈ queue := (List.mem_filter.mp hq0).1
      by_cases h : q0.id = f.id
      · have : q0 = f := List.inj_on_of_nodup_map hids hq0queue hfq h
        subst this
        rw [← hgq, if_pos h]
      · rw [← hgq, if_neg h] at hqid ⊢
        exact absurd hqid h
  · intro op hop hopid hne
    unfold flushQueue
    rw [hsnd]
    cases hdrop : (getPendingQueue userId queue).dropWhile ok with
    | nil => exact List.mem_filter.mpr ⟨hop, by simpa using hopid⟩
    | cons f tail =>
      unfold bumpQueueRetry
      refine List.mem_map.mpr ⟨op, List.mem_filter.mpr ⟨hop, by simpa using hopid⟩, ?_⟩
      rw [if_neg (hne f tail hdrop)]

theorem claim_C2_flush_first_failure_witness :
    (∀ q ∈ (flushQueue okNotQ2 "u1" queue3).2, q.id ≠ "q1")
    ∧ { sampleOp "q2" 2 with retries := 1 } ∈ (flushQueue okNotQ2 "u1" queue3).2
    ∧ sampleOp "q3" 3 ∈ (flushQueue okNotQ2 "u1" queue3).2
    ∧ (flushQueue okNotQ2 "u1" queue3).1 = [sampleOp "q1" 1, sampleOp "q2" 2] := by
  have h := claim_C2_flush_first_failure okNotQ2 "u1" queue3 (by decide)
  have hdrop : (getPendingQueue "u1" queue3).dropWhile okNotQ2
      = [sampleOp "q2" 2, sampleOp "q3" 3] := by decide
  refine ⟨?_, ?_, ?_, ?_⟩
  · exact h.2.2.2.2.1 (sampleOp "q1" 1) (by decide) (by decide)
  · exact (h.2.2.2.2.2.1 (sampleOp "q2" 2) [sampleOp "q3" 3] hdrop).1
  · refine h.2.2.2.2.2.2 (sampleOp "q3" 3) (by decide) (by decide) ?_
    intro f rest hf
    rw [hdrop] at hf
    injection hf with h1 h2
    rw [← h1]
    decide
  · have h4 := h.2.2.2.1
    rw [hdrop] at h4
    rw [h4]
    decide

/-- Claim C8: the payload of an enqueued upsert operation is a value snapshot
of the task taken at enqueue time: after `putTaskLocal` enqueues an upsert
for `task`, a later `putTaskLocal` of any record `edited` (in particular one
with the same id) only appends to the queue, so the already-enqueued
operation — and in particular its payload — is left unchanged. -/
theorem claim_C8_payload_snapshot (db : LocalDb) (task edited : TaskRecord)
    (f1 f2 : String) (n1 n2 : Int) (sq : Bool) :
    (⟨f1, task.user_id, .upsert_task, task.id, .task task, n1, 0⟩ : QueueOperation)
        ∈ (putTaskLocal f1 n1 task true db).queue
    ∧ (∃ suffix, (putTaskLocal f2 n2 edited sq (putTaskLocal f1 n1 task true db)).queue
        = (putTaskLocal f1 n1 task true db).queue ++ suffix)
    ∧ (⟨f1, task.user_id, .upsert_task, task.id, .task task, n1, 0⟩ : QueueOperation)
        ∈ (putTaskLocal f2 n2 edited sq (putTaskLocal f1 n1 task true db)).queue := by
  have h1 : (putTaskLocal f1 n1 task true db).queue
      = db.queue ++ [⟨f1, task.user_id, .upsert_task, task.id, .task task, n1, 0⟩] := rfl
  have hmem : (⟨f1, task.user_id, .upsert_task, task.id, .task task, n1, 0⟩ : QueueOperation)
      ∈ (putTaskLocal f1 n1 task true db).queue := by
    rw [h1]
    exact List.mem_append_right _ (List.mem_singleton.mpr rfl)
  have h2 : ∃ suffix, (putTaskLocal f2 n2 edited sq (putTaskLocal f1 n1 task true db)).queue
      = (putTaskLocal f1 n1 task true db).queue ++ suffix := by
    cases sq with
    | true =>
      exact ⟨[⟨f2, edited.user_id, .upsert_task, edited.id, .task edited, n2, 0⟩], rfl⟩
    | false => exact ⟨[], (List.append_nil _).symm⟩
  obtain ⟨suffix, hsuf⟩ := h2
  refine ⟨hmem, ⟨suffix, hsuf⟩, ?_⟩
  rw [hsuf]
  exact List.mem_append_left _ hmem

theorem normalize_toRaw (freshId : String) (now : Int) (t : TaskRecord) :
    normalizeTaskRecord freshId now (toRaw t) = t := by
  rcases t with ⟨i, u, ti, st, pr, tg, sd, dt, em, en, ca, ua, co, os, tz, t3, ln⟩
  cases st <;> cases pr <;> rfl

theorem normalize_map_toRaw (freshId : String) (now : Int) (l : List TaskRecord) :
    l.map (fun row => normalizeTaskRecord freshId now (toRaw row)) = l :=
  List.map_id'' (normalize_toRaw freshId now) l

theorem sorted_getLast?_max (l : List TaskRecord)
    (hs : List.Sorted (fun a b : TaskRecord => a.updated_at ≤ b.updated_at) l) :
    ∀ m, l.getLast? = some m → ∀ x ∈ l, x.updated_at ≤ m.updated_at := by
  induction l with
  | nil => intro m hm; cases hm
  | cons a tl ih =>
    intro m hm x hx
    cases tl with
    | nil =>
      simp only [List.getLast?_singleton, Option.some.injEq] at hm
      rcases List.mem_singleton.mp hx with rfl
      rw [hm]
    | cons b tl2 =>
      rw [List.getLast?_cons_cons] at hm
      have hmmem : m ∈ b :: tl2 := List.mem_of_getLast?_eq_some hm
      rcases List.mem_cons.mp hx with rfl | hx2
      · exact le_trans (List.rel_of_sorted_cons hs m hmmem) (le_refl _)
      · exact ih (List.Sorted.of_cons hs) m hm x hx2

theorem pullUpdates_eq (freshId : String) (now : Int) (remote : List TaskRecord)
    (userId : String) (st : ClientState) :
    pullUpdates freshId now remote userId st =
      (match (remoteQuery remote userId ((st.meta (lastPullKey userId)).getD 0)).getLast? with
       | some last =>
          ⟨upsertTasksFromRemote
              (remoteQuery remote userId ((st.meta (lastPullKey userId)).getD 0)) st.tasks,
            setMetaValue (lastPullKey userId) last.updated_at st.meta⟩
       | none =>
          ⟨upsertTasksFromRemote
              (remoteQuery remote userId ((st.meta (lastPullKey userId)).getD 0)) st.tasks,
            st.meta⟩) := by
  unfold pullUpdates
  simp only [normalize_map_toRaw]

/-- Claim C3: `pullUpdates` requests only remote rows of this owner whose
`updated_at` is strictly greater than the stored per-owner cursor, in
ascending `updated_at` order, limited to 1000 rows; it merges the batch via
the last-write-wins rule; and it advances the cursor to the batch's maximum
`updated_at` exactly when the batch is non-empty, an empty batch leaving the
cursor unchanged. -/
theorem claim_C3_pull_protocol (freshId : String) (now since : Int)
    (remote : List TaskRecord) (userId : String) (st : ClientState)
    (hsince : since = (st.meta (lastPullKey userId)).getD 0) :
    (∀ r ∈ remoteQuery remote userId since,
        r ∈ remote ∧ r.user_id = userId ∧ since < r.updated_at)
    ∧ List.Sorted (fun a b : TaskRecord => a.updated_at ≤ b.updated_at)
        (remoteQuery remote userId since)
    ∧ (remoteQuery remote userId since).length ≤ 1000
    ∧ (pullUpdates freshId now remote userId st).tasks
        = upsertTasksFromRemote (remoteQuery remote userId since) st.tasks
    ∧ (remoteQuery remote userId since = [] →
        (pullUpdates freshId now remote userId st).meta = st.meta)
    ∧ (∀ last, (remoteQuery remote userId since).getLast? = some last →
        (pullUpdates freshId now remote userId st).meta (lastPullKey userId)
            = some last.updated_at
        ∧ last ∈ remoteQuery remote userId since
        ∧ ∀ r ∈ remoteQuery remote userId since, r.updated_at ≤ last.updated_at) := by
  subst hsince
  have hsorted : List.Sorted (fun a b : TaskRecord => a.updated_at ≤ b.updated_at)
      (remoteQuery remote userId ((st.meta (lastPullKey userId)).getD 0)) :=
    List.Pairwise.sublist (List.take_sublist 1000 _)
      (List.sorted_insertionSort (fun a b : TaskRecord => a.updated_at ≤ b.updated_at) _)
  refine ⟨?_, hsorted, List.length_take_le 1000 _, ?_, ?_, ?_⟩
  · intro r hr
    unfold remoteQuery at hr
    have h1 := List.mem_of_mem_take hr
    have h2 : r ∈ remote.filter
        (fun t => decide (t.user_id = userId)
          && decide ((st.meta (lastPullKey userId)).getD 0 < t.updated_at)) :=
      (List.mem_insertionSort (fun a b : TaskRecord => a.updated_at ≤ b.updated_at)).mp h1
    have h3 := List.mem_filter.mp h2
    refine ⟨h3.1, ?_, ?_⟩
    · have := h3.2
      simp only [Bool.and_eq_true, decide_eq_true_eq] at this
      exact this.1
    · have := h3.2
      simp only [Bool.and_eq_true, decide_eq_true_eq] at this
      exact this.2
  · rw [pullUpdates_eq]
    cases hlast : (remoteQuery remote userId ((st.meta (lastPullKey userId)).getD 0)).getLast?
      <;> rfl
  · intro hempty
    rw [pullUpdates_eq]
    rw [hempty]
    rfl
  · intro last hlast
    rw [pullUpdates_eq, hlast]
    refine ⟨?_, List.mem_of_getLast?_eq_some hlast, ?_⟩
    · show setMetaValue (lastPullKey userId) last.updated_at st.meta (lastPullKey userId)
        = some last.updated_at
      unfold setMetaValue
      rw [if_pos rfl]
    · exact sorted_getLast?_max _ hsorted last hlast


theorem claim_C3_pull_protocol_witness :
    (pullUpdates "f" 99 remoteC "u1" st0).meta (lastPullKey "u1") = some 7
    ∧ (pullUpdates "f" 99 remoteC "u1" st0).tasks
        = upsertTasksFromRemote (remoteQuery remoteC "u1" 0) st0.tasks
    ∧ sampleTask "r1" 5 ∈ remoteQuery remoteC "u1" 0 := by
  have h := claim_C3_pull_protocol "f" 99 0 remoteC "u1" st0 rfl
  have hlast : (remoteQuery remoteC "u1" 0).getLast? = some (sampleTask "r2" 7) := by decide
  exact ⟨(h.2.2.2.2.2 (sampleTask "r2" 7) hlast).1, h.2.2.2.1, by decide⟩

/-- Claim C9 fails as stated: normalization does not establish the
invariant. Normalizing a malformed row whose status is `todo` but whose
`completed_at` is set yields a stored record with `status = todo` and
`completed_at` non-null. -/
theorem claim_C9_counterexample :
    (normalizeTaskRecord "x" 0 rawViolating).status = .todo
    ∧ (normalizeTaskRecord "x" 0 rawViolating).completed_at = some 1
    ∧ ¬ taskInv (normalizeTaskRecord "x" 0 rawViolating) := by
  refine ⟨rfl, rfl, ?_⟩
  unfold taskInv
  decide

theorem upsert_preserves_inv (ts : List TaskRecord) :
    ∀ (store : TaskStore), (∀ t ∈ ts, taskInv t) →
      (∀ i c, store i = some c → taskInv c) →
      ∀ i c, upsertTasksFromRemote ts store i = some c → taskInv c := by
  induction ts with
  | nil => exact fun store _ hstore => hstore
  | cons a rest ih =>
    intro store hts hstore
    refine ih (storeStep store a) (fun t ht => hts t (List.mem_cons_of_mem a ht)) ?_
    intro i c hc
    unfold storeStep at hc
    by_cases hn : isIncomingNewer a (store a.id) = true
    · rw [if_pos hn] at hc
      unfold putTask at hc
      by_cases hi : i = a.id
      · rw [if_pos hi] at hc
        cases hc
        exact hts a (List.mem_cons_self a rest)
      · rw [if_neg hi] at hc
        exact hstore i c hc
    · rw [if_neg hn] at hc
      exact hstore i c hc

/-- Claim C9 amended: the invariant `completed_at` non-null iff
`status = done` is established by task creation and by legacy conversion,
preserved by normalization (a well-formed raw row normalizes to a
well-formed record), re-established by `updateTask` whenever the patch sets
`status`, preserved by `updateTask` for patches that touch neither `status`
nor `completed_at`, and preserved by the last-write-wins merge. -/
theorem claim_C9_completed_iff_done (freshId userId title : String)
    (priority : TaskPriority) (sd : Option Int) (tz : String) (stamp : Int) :
    (∀ f n raw, rawTaskInv raw → taskInv (normalizeTaskRecord f n raw))
    ∧ (∀ now source (patch : TaskPatch) s, patch.status = some s →
        taskInv (updateTask now source patch))
    ∧ (∀ now source (patch : TaskPatch), taskInv source → patch.status = none →
        patch.completed_at = none → taskInv (updateTask now source patch))
    ∧ taskInv (createTaskRecord freshId userId title priority sd tz stamp)
    ∧ (∀ f now todayDate legacy uid z, taskInv (toLegacyTaskRecord f now todayDate legacy uid z))
    ∧ (∀ ts store, (∀ t ∈ ts, taskInv t) → (∀ i c, store i = some c → taskInv c) →
        ∀ i c, upsertTasksFromRemote ts store i = some c → taskInv c) := by
  refine ⟨?_, ?_, ?_, ?_, ?_, upsert_preserves_inv⟩
  · intro f n raw hinv
    unfold taskInv normalizeTaskRecord
    unfold rawTaskInv at hinv
    by_cases h : raw.status = some "done" <;> simp [h] at hinv ⊢ <;> exact hinv
  · intro now source patch s hs
    cases s with
    | done =>
      unfold taskInv updateTask
      simp [hs, applyPatch]
    | todo =>
      unfold taskInv updateTask
      simp [hs, applyPatch]
  · intro now source patch hinv hstat hcomp
    unfold taskInv updateTask applyPatch
    unfold taskInv at hinv
    simp [hstat, hcomp]
    exact hinv
  · unfold taskInv createTaskRecord
    simp
  · intro f now todayDate legacy uid z
    unfold taskInv toLegacyTaskRecord
    cases legacy.completed <;> simp

theorem claim_C9_completed_iff_done_witness :
    taskInv (normalizeTaskRecord "x" 0 (toRaw (sampleTask "a" 1)))
    ∧ taskInv (updateTask 5 (sampleTask "a" 1) patchDone)
    ∧ taskInv (updateTask 5 (sampleTask "a" 1) { title := some "renamed" })
    ∧ taskInv (createTaskRecord "c" "u1" "t" .normal none "UTC" 3)
    ∧ taskInv (toLegacyTaskRecord "l" 7 100 ⟨some 2, some " x ", true, none, none, false⟩ "u1" "UTC") := by
  have h := claim_C9_completed_iff_done "c" "u1" "t" .normal none "UTC" 3
  refine ⟨h.1 "x" 0 (toRaw (sampleTask "a" 1)) ?_,
    h.2.1 5 (sampleTask "a" 1) patchDone .done rfl,
    h.2.2.1 5 (sampleTask "a" 1) { title := some "renamed" } ?_ rfl rfl,
    h.2.2.2.1,
    h.2.2.2.2.1 "l" 7 100 ⟨some 2, some " x ", true, none, none, false⟩ "u1" "UTC"⟩
  · unfold rawTaskInv
    decide
  · unfold taskInv
    decide

theorem notifiedOk_iff (l : Option Int) (d : Int) :
    notifiedOk l d = true ↔ (l = none ∨ ∃ n, l = some n ∧ n < d) := by
  cases l <;> simp [notifiedOk]

theorem toDueRow_due_at (mk : String → Int → Int → Int) (t : TaskRecord) (row : DueRow)
    (h : toDueRow mk t = some row) : task_due_at_utc mk t = some row.due_at := by
  unfold toDueRow at h
  unfold task_due_at_utc
  cases hd : t.scheduled_date with
  | none => rw [hd] at h; cases h
  | some d =>
    cases ht : t.due_time with
    | none => rw [hd, ht] at h; cases h
    | some tm =>
      rw [hd, ht] at h
      injection h with h'
      rw [← h']

theorem dueCandidate_eq_some (now endAt : Int)
    (t : TaskRecord) (o : Option DueRow) (row : DueRow) :
    ((match o with
      | none => none
      | some r =>
        if decide (t.status = .todo) && decide (now ≤ r.due_at)
            && decide (r.due_at < endAt) && notifiedOk t.last_notified_at r.due_at
        then some r else none) = some row)
    ↔ (o = some row ∧ t.status = .todo ∧ now ≤ row.due_at ∧ row.due_at < endAt
        ∧ (t.last_notified_at = none ∨ ∃ n, t.last_notified_at = some n ∧ n < row.due_at)) := by
  cases o with
  | none => simp
  | some r =>
    have hred : (match (some r : Option DueRow) with
        | none => none
        | some r =>
          if decide (t.status = .todo) && decide (now ≤ r.due_at)
              && decide (r.due_at < endAt) && notifiedOk t.last_notified_at r.due_at
          then some r else none)
        = (if decide (t.status = .todo) && decide (now ≤ r.due_at)
              && decide (r.due_at < endAt) && notifiedOk t.last_notified_at r.due_at
          then some r else none) := rfl
    rw [hred]
    by_cases hcond : (decide (t.status = .todo) && decide (now ≤ r.due_at)
        && decide (r.due_at < endAt) && notifiedOk t.last_notified_at r.due_at) = true
    · rw [if_pos hcond]
      simp only [Bool.and_eq_true, decide_eq_true_eq, notifiedOk_iff] at hcond
      constructor
      · intro heq
        injection heq with heq
        subst heq
        exact ⟨rfl, hcond.1.1.1, hcond.1.1.2, hcond.1.2, hcond.2⟩
      · rintro ⟨heq, -⟩
        injection heq with heq
        rw [heq]
    · rw [if_neg hcond]
      simp only [Bool.and_eq_true, decide_eq_true_eq, notifiedOk_iff, not_and] at hcond
      constructor
      · intro h; cases h
      · rintro ⟨heq, h1, h2, h3, h4⟩
        injection heq with heq
        subst heq
        exact absurd h4 (hcond ⟨⟨h1, h2⟩, h3⟩)

theorem get_due_tasks_mem (mk : String → Int → Int → Int) (now w : Int)
    (tasks : List TaskRecord) (row : DueRow) :
    row ∈ get_due_tasks mk now w tasks
    ↔ ∃ t, t ∈ tasks ∧ toDueRow mk t = some row ∧ t.status = .todo
        ∧ now ≤ row.due_at ∧ row.due_at < now + 60 * max w 1
        ∧ (t.last_notified_at = none ∨ ∃ n, t.last_notified_at = some n ∧ n < row.due_at) := by
  unfold get_due_tasks
  rw [List.mem_insertionSort, List.mem_filterMap]
  constructor
  · rintro ⟨t, ht, heq⟩
    have := (dueCandidate_eq_some now (now + 60 * max w 1) t (toDueRow mk t) row).mp heq
    exact ⟨t, ht, this.1, this.2.1, this.2.2.1, this.2.2.2.1, this.2.2.2.2⟩
  · rintro ⟨t, ht, h1, h2, h3, h4, h5⟩
    exact ⟨t, ht, (dueCandidate_eq_some now (now + 60 * max w 1) t (toDueRow mk t) row).mpr
      ⟨h1, h2, h3, h4, h5⟩⟩

/-- Claim C4: `get_due_tasks` selects exactly the `todo` tasks with a set
date and time whose due instant — date and time composed in the task's own
timezone — lies in `[now, now + window)`, and whose `last_notified_at` is
null or strictly before that instant (so a task whose due instant moved
strictly past an earlier notification is selected again); rows come ordered
by due instant ascending. Stated for `1 ≤ window`, where the SQL clamp
`greatest(window_minutes, 1)` is the identity. -/
theorem claim_C4_due_task_selection (mk : String → Int → Int → Int) (now window : Int)
    (tasks : List TaskRecord) (hw : 1 ≤ window) :
    (∀ row, row ∈ get_due_tasks mk now window tasks
      ↔ ∃ t, t ∈ tasks ∧ toDueRow mk t = some row ∧ t.status = .todo
          ∧ task_due_at_utc mk t = some row.due_at
          ∧ now ≤ row.due_at ∧ row.due_at < now + 60 * window
          ∧ (t.last_notified_at = none ∨ ∃ n, t.last_notified_at = some n ∧ n < row.due_at))
    ∧ List.Sorted (fun a b : DueRow => a.due_at ≤ b.due_at)
        (get_due_tasks mk now window tasks) := by
  have hmax : max window 1 = window := max_eq_left hw
  constructor
  · intro row
    rw [get_due_tasks_mem, hmax]
    constructor
    · rintro ⟨t, ht, h1, h2, h3, h4, h5⟩
      exact ⟨t, ht, h1, h2, toDueRow_due_at mk t row h1, h3, h4, h5⟩
    · rintro ⟨t, ht, h1, h2, -, h3, h4, h5⟩
      exact ⟨t, ht, h1, h2, h3, h4, h5⟩
  · exact List.sorted_insertionSort (fun a b : DueRow => a.due_at ≤ b.due_at) _

theorem claim_C4_due_task_selection_witness :
    (⟨"d1", "u1", "t", 1000, 30, "UTC", 1030⟩ : DueRow) ∈ get_due_tasks mkUTC 1000 5 [taskDue]
    ∧ List.Sorted (fun a b : DueRow => a.due_at ≤ b.due_at)
        (get_due_tasks mkUTC 1000 5 [taskDue]) := by
  have h := claim_C4_due_task_selection mkUTC 1000 5 [taskDue] (by decide)
  refine ⟨(h.1 ⟨"d1", "u1", "t", 1000, 30, "UTC", 1030⟩).mpr
    ⟨taskDue, List.mem_singleton.mpr rfl, rfl, rfl, rfl, by decide, by decide, Or.inl rfl⟩, h.2⟩

/-- Claim C10: the effective scan window is always positive — for every
integer `window_minutes` the query uses the window end
`now + 60 * max window_minutes 1`, every returned row's due instant lies in
that window, and a zero-or-negative argument behaves exactly as a 1-minute
window; the HTTP handler passes 5 whenever the `window` query parameter is
absent or does not coerce to a finite number, and the parsed value itself
otherwise. -/
theorem claim_C10_positive_window (mk : String → Int → Int → Int) (now w : Int)
    (tasks : List TaskRecord) :
    (∀ row ∈ get_due_tasks mk now w tasks,
        now ≤ row.due_at ∧ row.due_at < now + 60 * max w 1)
    ∧ now < now + 60 * max w 1
    ∧ (w ≤ 1 → get_due_tasks mk now w tasks = get_due_tasks mk now 1 tasks)
    ∧ resolveWindow none = 5
    ∧ resolveWindow (some .notFinite) = 5
    ∧ (∀ n, resolveWindow (some (.finite n)) = n) := by
  refine ⟨?_, ?_, ?_, rfl, rfl, fun n => rfl⟩
  · intro row hrow
    obtain ⟨t, -, -, -, h4, h5, -⟩ := (get_due_tasks_mem mk now w tasks row).mp hrow
    exact ⟨h4, h5⟩
  · have h1 : (1 : Int) ≤ max w 1 := le_max_right w 1
    linarith
  · intro hw
    have hmax : max w 1 = 1 := max_eq_right hw
    simp only [get_due_tasks]
    rw [hmax, max_self]

theorem claim_C10_positive_window_witness :
    get_due_tasks mkUTC 1000 0 [taskDue] = get_due_tasks mkUTC 1000 1 [taskDue]
    ∧ (1000 : Int) < 1000 + 60 * max 0 1
    ∧ resolveWindow (some .notFinite) = 5 := by
  have h := claim_C10_positive_window mkUTC 1000 0 [taskDue]
  exact ⟨h.2.2.1 (by decide), h.2.1, h.2.2.2.2.1⟩

theorem pushSub_effects_mono (send : SubscriptionRow → DueRow → PushOutcome)
    (task : DueRow) (st : DispatchState) (sub : SubscriptionRow) (e : CronEffect)
    (h : e ∈ st.effects) : e ∈ (pushSub send task st sub).effects := by
  unfold pushSub
  cases hs : send sub task <;> exact List.mem_append_left _ h

theorem pushSub_effects_source (send : SubscriptionRow → DueRow → PushOutcome)
    (task : DueRow) (st : DispatchState) (sub : SubscriptionRow) (e : CronEffect)
    (h : e ∈ (pushSub send task st sub).effects) :
    e ∈ st.effects ∨ isMarkEffect e = false := by
  unfold pushSub at h
  cases hs : send sub task <;> rw [hs] at h <;>
    rcases List.mem_append.mp h with h1 | h2
  · exact Or.inl h1
  · rcases List.mem_singleton.mp h2 with rfl; exact Or.inr rfl
  · exact Or.inl h1
  · rcases List.mem_cons.mp h2 with rfl | h3
    · exact Or.inr rfl
    · rcases List.mem_singleton.mp h3 with rfl; exact Or.inr rfl
  · exact Or.inl h1
  · rcases List.mem_singleton.mp h2 with rfl; exact Or.inr rfl

theorem pushSub_sent (send : SubscriptionRow → DueRow → PushOutcome)
    (task : DueRow) (st : DispatchState) (sub : SubscriptionRow) :
    (pushSub send task st sub).sentTaskIds = st.sentTaskIds := by
  unfold pushSub
  cases hs : send sub task <;> rfl

theorem innerFold_effects_mono (send : SubscriptionRow → DueRow → PushOutcome)
    (task : DueRow) (subsList : List SubscriptionRow) :
    ∀ (st : DispatchState) (e : CronEffect), e ∈ st.effects →
      e ∈ (subsList.foldl (pushSub send task) st).effects := by
  induction subsList with
  | nil => exact fun st e h => h
  | cons s rest ih =>
    exact fun st e h => ih _ e (pushSub_effects_mono send task st s e h)

theorem innerFold_effects_source (send : SubscriptionRow → DueRow → PushOutcome)
    (task : DueRow) (subsList : List SubscriptionRow) :
    ∀ (st : DispatchState) (e : CronEffect),
      e ∈ (subsList.foldl (pushSub send task) st).effects →
      e ∈ st.effects ∨ isMarkEffect e = false := by
  induction subsList with
  | nil => exact fun st e h => Or.inl h
  | cons s rest ih =>
    intro st e h
    rcases ih _ e h with h1 | h2
    · exact pushSub_effects_source send task st s e h1
    · exact Or.inr h2

theorem innerFold_sent (send : SubscriptionRow → DueRow → PushOutcome)
    (task : DueRow) (subsList : List SubscriptionRow) :
    ∀ st : DispatchState, (subsList.foldl (pushSub send task) st).sentTaskIds
      = st.sentTaskIds := by
  induction subsList with
  | nil => intro st; rfl
  | cons s rest ih =>
    intro st
    rw [List.foldl_cons, ih, pushSub_sent]

theorem innerFold_attempt (send : SubscriptionRow → DueRow → PushOutcome)
    (task : DueRow) (subsList : List SubscriptionRow) :
    ∀ (st : DispatchState) (sub : SubscriptionRow), sub ∈ subsList →
      CronEffect.webPush task.id sub.id ∈ (subsList.foldl (pushSub send task) st).effects := by
  induction subsList with
  | nil => intro st sub h; cases h
  | cons s rest ih =>
    intro st sub h
    rcases List.mem_cons.mp h with rfl | hmem
    · rw [List.foldl_cons]
      apply innerFold_effects_mono
      unfold pushSub
      cases hs : send sub task
      · exact List.mem_append_right _ (by simp)
      · exact List.mem_append_right _ (by simp)
      · exact List.mem_append_right _ (by simp)
    · rw [List.foldl_cons]
      exact ih _ sub hmem

theorem processDueTask_effects_mono (send : SubscriptionRow → DueRow → PushOutcome)
    (byUser : String → List SubscriptionRow) (st : DispatchState) (task : DueRow)
    (e : CronEffect) (h : e ∈ st.effects) :
    e ∈ (processDueTask send byUser st task).effects := by
  simp only [processDueTask]
  by_cases hemp : (byUser task.user_id).isEmpty = true
  · rw [if_pos hemp]; exact h
  · rw [if_neg hemp]
    by_cases hany : (byUser task.user_id).any (fun sub => decide (send sub task = .ok)) = true
    · rw [if_pos hany]
      exact innerFold_effects_mono send task _ st e h
    · rw [if_neg hany]
      exact innerFold_effects_mono send task _ st e h

theorem processDueTask_effects_source (send : SubscriptionRow → DueRow → PushOutcome)
    (byUser : String → List SubscriptionRow) (st : DispatchState) (task : DueRow)
    (e : CronEffect) (h : e ∈ (processDueTask send byUser st task).effects) :
    e ∈ st.effects ∨ isMarkEffect e = false := by
  simp only [processDueTask] at h
  by_cases hemp : (byUser task.user_id).isEmpty = true
  · rw [if_pos hemp] at h; exact Or.inl h
  · rw [if_neg hemp] at h
    by_cases hany : (byUser task.user_id).any (fun sub => decide (send sub task = .ok)) = true
    · rw [if_pos hany] at h
      exact innerFold_effects_source send task _ st e h
    · rw [if_neg hany] at h
      exact innerFold_effects_source send task _ st e h

theorem processDueTask_attempt (send : SubscriptionRow → DueRow → PushOutcome)
    (byUser : String → List SubscriptionRow) (st : DispatchState) (task : DueRow)
    (sub : SubscriptionRow) (h : sub ∈ byUser task.user_id) :
    CronEffect.webPush task.id sub.id ∈ (processDueTask send byUser st task).effects := by
  have hemp : (byUser task.user_id).isEmpty = false := by
    cases hc : byUser task.user_id with
    | nil => rw [hc] at h; cases h
    | cons a l => rfl
  simp only [processDueTask, hemp, Bool.false_eq_true, if_false]
  by_cases hany : (byUser task.user_id).any (fun sub => decide (send sub task = .ok)) = true
  · rw [if_pos hany]
    exact innerFold_attempt send task _ st sub h
  · rw [if_neg hany]
    exact innerFold_attempt send task _ st sub h

theorem processDueTask_sent (send : SubscriptionRow → DueRow → PushOutcome)
    (byUser : String → List SubscriptionRow) (st : DispatchState) (task : DueRow) :
    (processDueTask send byUser st task).sentTaskIds =
      (if (byUser task.user_id).any (fun sub => decide (send sub task = .ok))
       then jsSetAdd st.sentTaskIds task.id else st.sentTaskIds) := by
  simp only [processDueTask]
  by_cases hemp : (byUser task.user_id).isEmpty = true
  · rw [if_pos hemp]
    have hnil : byUser task.user_id = [] := List.isEmpty_iff.mp hemp
    rw [hnil]
    simp
  · rw [if_neg hemp]
    by_cases hany : (byUser task.user_id).any (fun sub => decide (send sub task = .ok)) = true
    · rw [if_pos hany, if_pos hany]
      show (jsSetAdd ((byUser task.user_id).foldl (pushSub send task) st).sentTaskIds task.id)
        = jsSetAdd st.sentTaskIds task.id
      rw [innerFold_sent]
    · rw [if_neg hany, if_neg hany]
      exact innerFold_sent send task _ st

theorem dispatch_effects_mono (send : SubscriptionRow → DueRow → PushOutcome)
    (byUser : String → List SubscriptionRow) (due : List DueRow) :
    ∀ (st : DispatchState) (e : CronEffect), e ∈ st.effects →
      e ∈ (due.foldl (processDueTask send byUser) st).effects := by
  induction due with
  | nil => exact fun st e h => h
  | cons a rest ih =>
    intro st e h
    rw [List.foldl_cons]
    exact ih _ e (processDueTask_effects_mono send byUser st a e h)

theorem dispatch_effects_no_mark (send : SubscriptionRow → DueRow → PushOutcome)
    (byUser : String → List SubscriptionRow) (due : List DueRow) :
    ∀ (st : DispatchState) (e : CronEffect),
      e ∈ (due.foldl (processDueTask send byUser) st).effects →
      e ∈ st.effects ∨ isMarkEffect e = false := by
  induction due with
  | nil => exact fun st e h => Or.inl h
  | cons a rest ih =>
    intro st e h
    rw [List.foldl_cons] at h
    rcases ih _ e h with h1 | h2
    · exact processDueTask_effects_source send byUser st a e h1
    · exact Or.inr h2

theorem dispatch_attempts (send : SubscriptionRow → DueRow → PushOutcome)
    (byUser : String → List SubscriptionRow) (due : List DueRow) :
    ∀ (st : DispatchState) (t : DueRow), t ∈ due → ∀ sub ∈ byUser t.user_id,
      CronEffect.webPush t.id sub.id ∈ (due.foldl (processDueTask send byUser) st).effects := by
  induction due with
  | nil => intro st t h; cases h
  | cons a rest ih =>
    intro st t h sub hsub
    rw [List.foldl_cons]
    rcases List.mem_cons.mp h with rfl | hmem
    · exact dispatch_effects_mono send byUser rest _ _
        (processDueTask_attempt send byUser st t sub hsub)
    · exact ih _ t hmem sub hsub

theorem jsSetAdd_mem (s : List String) (x y : String) :
    y ∈ jsSetAdd s x ↔ (y ∈ s ∨ y = x) := by
  unfold jsSetAdd
  by_cases h : x ∈ s
  · rw [if_pos h]
    constructor
    · exact Or.inl
    · rintro (h1 | rfl)
      · exact h1
      · exact h
  · rw [if_neg h]
    simp

theorem dispatch_sent_mono (send : SubscriptionRow → DueRow → PushOutcome)
    (byUser : String → List SubscriptionRow) (due : List DueRow) :
    ∀ (st : DispatchState) (x : String), x ∈ st.sentTaskIds →
      x ∈ (due.foldl (processDueTask send byUser) st).sentTaskIds := by
  induction due with
  | nil => exact fun st x h => h
  | cons a rest ih =>
    intro st x h
    rw [List.foldl_cons]
    refine ih _ x ?_
    rw [processDueTask_sent]
    by_cases hany : (byUser a.user_id).any (fun sub => decide (send sub a = .ok)) = true
    · rw [if_pos hany]
      exact (jsSetAdd_mem _ _ _).mpr (Or.inl h)
    · rw [if_neg hany]
      exact h

theorem dispatch_sent_source (send : SubscriptionRow → DueRow → PushOutcome)
    (byUser : String → List SubscriptionRow) (due : List DueRow) :
    ∀ (st : DispatchState) (x : String),
      x ∈ (due.foldl (processDueTask send byUser) st).sentTaskIds →
      x ∈ st.sentTaskIds ∨ ∃ t, t ∈ due ∧ t.id = x := by
  induction due with
  | nil => exact fun st x h => Or.inl h
  | cons a rest ih =>
    intro st x h
    rw [List.foldl_cons] at h
    rcases ih _ x h with h1 | ⟨t, ht, rfl⟩
    · rw [processDueTask_sent] at h1
      by_cases hany : (byUser a.user_id).any (fun sub => decide (send sub a = .ok)) = true
      · rw [if_pos hany] at h1
        rcases (jsSetAdd_mem _ _ _).mp h1 with h2 | rfl
        · exact Or.inl h2
        · exact Or.inr ⟨a, List.mem_cons_self a rest, rfl⟩
      · rw [if_neg hany] at h1
        exact Or.inl h1
    · exact Or.inr ⟨t, List.mem_cons_of_mem a ht, rfl⟩

theorem dispatch_sent_iff (send : SubscriptionRow → DueRow → PushOutcome)
    (byUser : String → List SubscriptionRow) (due : List DueRow) :
    ∀ st : DispatchState, ((due.map (fun t => t.id)).Nodup) →
      ∀ t ∈ due, t.id ∉ st.sentTaskIds →
      (t.id ∈ (due.foldl (processDueTask send byUser) st).sentTaskIds
        ↔ (byUser t.user_id).any (fun sub => decide (send sub t = .ok)) = true) := by
  induction due with
  | nil => intro st _ t h; cases h
  | cons a rest ih =>
    intro st hnd t ht hstt
    have hnd' : (a.id :: rest.map (fun t => t.id)).Nodup := by simpa using hnd
    have hnd1 : a.id ∉ rest.map (fun t => t.id) := (List.nodup_cons.mp hnd').1
    have hnd2 : (rest.map (fun t => t.id)).Nodup := (List.nodup_cons.mp hnd').2
    rw [List.foldl_cons]
    rcases List.mem_cons.mp ht with rfl | hmem
    · by_cases hany : (byUser t.user_id).any (fun sub => decide (send sub t = .ok)) = true
      · constructor
        · intro _; exact hany
        · intro _
          apply dispatch_sent_mono send byUser rest
          rw [processDueTask_sent, if_pos hany]
          exact (jsSetAdd_mem _ _ _).mpr (Or.inr rfl)
      · constructor
        · intro hmem'
          rcases dispatch_sent_source send byUser rest _ t.id hmem' with h1 | ⟨t', ht', heq⟩
          · rw [processDueTask_sent, if_neg hany] at h1
            exact absurd h1 hstt
          · have : t.id ∈ rest.map (fun t => t.id) :=
              heq ▸ List.mem_map_of_mem (fun t => t.id) ht'
            exact absurd this hnd1
        · intro hc; exact absurd hc hany
    · have hne : t.id ≠ a.id := by
        intro he
        exact hnd1 (he ▸ List.mem_map_of_mem (fun t => t.id) hmem)
      apply ih _ hnd2 t hmem
      rw [processDueTask_sent]
      by_cases hany : (byUser a.user_id).any (fun sub => decide (send sub a = .ok)) = true
      · rw [if_pos hany]
        intro hc
        rcases (jsSetAdd_mem _ _ _).mp hc with h1 | h2
        · exact hstt h1
        · exact hne h2
      · rw [if_neg hany]
        exact hstt

theorem cronHandler_authorized (cronSecret : Option String) (req : CronRequest)
    (send : SubscriptionRow → DueRow → PushOutcome) (due : List DueRow)
    (subs : List SubscriptionRow) (now : Int) (tasks : List TaskRecord)
    (hauth : canRun cronSecret req = true) :
    cronHandler cronSecret req send due subs now tasks =
      (if due.isEmpty then
        (200, ([CronEffect.queryDueTasks (resolveWindow req.queryWindow)], tasks))
       else if (dispatchDue send (byUserOf subs) due).sentTaskIds.isEmpty then
        (200, ([CronEffect.queryDueTasks (resolveWindow req.queryWindow),
            .querySubscriptions ((due.map (fun t => t.user_id)).foldl jsSetAdd [])]
          ++ (dispatchDue send (byUserOf subs) due).effects, tasks))
       else
        (200, ([CronEffect.queryDueTasks (resolveWindow req.queryWindow),
            .querySubscriptions ((due.map (fun t => t.user_id)).foldl jsSetAdd [])]
          ++ (dispatchDue send (byUserOf subs) due).effects
          ++ [.markNotified (dispatchDue send (byUserOf subs) due).sentTaskIds],
          mark_tasks_notified now (dispatchDue send (byUserOf subs) due).sentTaskIds tasks))) := by
  simp only [cronHandler, hauth]
  rw [if_neg]
  simp


/-- Claim C5: in one authorized dispatcher run, every due task is attempted
against every fetched subscription of its owner; a task id enters
`sentTaskIds` iff at least one of its owner's subscriptions delivers; every
sent id comes from the due batch; the whole run issues `mark_tasks_notified`
exactly once, in bulk, for exactly `sentTaskIds` — and not at all when no
task was delivered; the resulting table applies that one bulk mark; and
marking sets `last_notified_at` and `updated_at` to the dispatch instant
`now`, not to the due instant. -/
theorem claim_C5_fanout_and_bulk_mark (cronSecret : Option String) (req : CronRequest)
    (send : SubscriptionRow → DueRow → PushOutcome) (due : List DueRow)
    (subs : List SubscriptionRow) (now : Int) (tasks : List TaskRecord)
    (hauth : canRun cronSecret req = true)
    (hnd : (due.map (fun t => t.id)).Nodup) :
    (∀ t ∈ due, ∀ sub ∈ byUserOf subs t.user_id,
        CronEffect.webPush t.id sub.id ∈ (cronHandler cronSecret req send due subs now tasks).2.1)
    ∧ (∀ t ∈ due, (t.id ∈ (dispatchDue send (byUserOf subs) due).sentTaskIds
        ↔ ∃ sub ∈ byUserOf subs t.user_id, send sub t = .ok))
    ∧ (∀ x ∈ (dispatchDue send (byUserOf subs) due).sentTaskIds, ∃ t ∈ due, t.id = x)
    ∧ ((cronHandler cronSecret req send due subs now tasks).2.1.filter isMarkEffect
        = (if (dispatchDue send (byUserOf subs) due).sentTaskIds.isEmpty then []
           else [CronEffect.markNotified (dispatchDue send (byUserOf subs) due).sentTaskIds]))
    ∧ ((cronHandler cronSecret req send due subs now tasks).2.2
        = (if (dispatchDue send (byUserOf subs) due).sentTaskIds.isEmpty then tasks
           else mark_tasks_notified now (dispatchDue send (byUserOf subs) due).sentTaskIds tasks))
    ∧ (∀ task ∈ tasks, ∀ ids : List String,
        (task.id ∈ ids → { task with last_notified_at := some now, updated_at := now }
            ∈ mark_tasks_notified now ids tasks)
        ∧ (task.id ∉ ids → task ∈ mark_tasks_notified now ids tasks)) := by
  have hshape := cronHandler_authorized cronSecret req send due subs now tasks hauth
  have hnomark : ∀ e ∈ (dispatchDue send (byUserOf subs) due).effects, isMarkEffect e = false := by
    intro e he
    rcases dispatch_effects_no_mark send (byUserOf subs) due ⟨[], [], 0⟩ e he with h1 | h2
    · cases h1
    · exact h2
  have hfilterD : (dispatchDue send (byUserOf subs) due).effects.filter isMarkEffect = [] := by
    rw [List.filter_eq_nil_iff]
    intro a ha
    rw [hnomark a ha]
    exact Bool.false_ne_true
  refine ⟨?_, ?_, ?_, ?_, ?_, ?_⟩
  · intro t ht sub hsub
    have hdueEmp : due.isEmpty = false := by
      cases hc : due with
      | nil => rw [hc] at ht; cases ht
      | cons a l => rfl
    rw [hshape]
    simp only [hdueEmp, Bool.false_eq_true, if_false]
    have hatt : CronEffect.webPush t.id sub.id ∈ (dispatchDue send (byUserOf subs) due).effects :=
      dispatch_attempts send (byUserOf subs) due ⟨[], [], 0⟩ t ht sub hsub
    by_cases hsent : (dispatchDue send (byUserOf subs) due).sentTaskIds.isEmpty = true
    · rw [if_pos hsent]
      exact List.mem_append_right _ hatt
    · rw [if_neg hsent]
      exact List.mem_append_left _ (List.mem_append_right _ hatt)
  · intro t ht
    have h := dispatch_sent_iff send (byUserOf subs) due ⟨[], [], 0⟩ hnd t ht
      (List.not_mem_nil t.id)
    rw [List.any_eq_true] at h
    simp only [decide_eq_true_eq] at h
    exact h
  · intro x hx
    rcases dispatch_sent_source send (byUserOf subs) due ⟨[], [], 0⟩ x hx with h1 | h2
    · cases h1
    · exact h2
  · rw [hshape]
    by_cases hdueEmp : due.isEmpty = true
    · have hdue : due = [] := List.isEmpty_iff.mp hdueEmp
      subst hdue
      rw [if_pos hdueEmp]
      rfl
    · rw [if_neg hdueEmp]
      by_cases hsent : (dispatchDue send (byUserOf subs) due).sentTaskIds.isEmpty = true
      · rw [if_pos hsent, if_pos hsent]
        show List.filter isMarkEffect
          ([CronEffect.queryDueTasks (resolveWindow req.queryWindow),
            .querySubscriptions ((due.map (fun t => t.user_id)).foldl jsSetAdd [])]
          ++ (dispatchDue send (byUserOf subs) due).effects) = []
        rw [List.filter_append, hfilterD]
        rfl
      · rw [if_neg hsent, if_neg hsent]
        show List.filter isMarkEffect
          ([CronEffect.queryDueTasks (resolveWindow req.queryWindow),
            .querySubscriptions ((due.map (fun t => t.user_id)).foldl jsSetAdd [])]
          ++ (dispatchDue send (byUserOf subs) due).effects
          ++ [CronEffect.markNotified (dispatchDue send (byUserOf subs) due).sentTaskIds])
          = [CronEffect.markNotified (dispatchDue send (byUserOf subs) due).sentTaskIds]
        rw [List.filter_append, List.filter_append, hfilterD]
        rfl
  · rw [hshape]
    by_cases hdueEmp : due.isEmpty = true
    · have hdue : due = [] := List.isEmpty_iff.mp hdueEmp
      subst hdue
      rw [if_pos hdueEmp]
      rfl
    · rw [if_neg hdueEmp]
      by_cases hsent : (dispatchDue send (byUserOf subs) due).sentTaskIds.isEmpty = true
      · rw [if_pos hsent, if_pos hsent]
      · rw [if_neg hsent, if_neg hsent]
  · intro task htask ids
    constructor
    · intro hin
      unfold mark_tasks_notified
      refine List.mem_map.mpr ⟨task, htask, ?_⟩
      show (if task.id ∈ ids
          then { task with last_notified_at := some now, updated_at := now } else task)
        = { task with last_notified_at := some now, updated_at := now }
      rw [if_pos hin]
    · intro hnin
      unfold mark_tasks_notified
      refine List.mem_map.mpr ⟨task, htask, ?_⟩
      show (if task.id ∈ ids
          then { task with last_notified_at := some now, updated_at := now } else task) = task
      rw [if_neg hnin]

theorem claim_C5_fanout_and_bulk_mark_witness :
    CronEffect.webPush "d1" "sA"
        ∈ (cronHandler (some "s") reqCron sendGoneA [rowD] [subA, subB] 2000 [taskDue]).2.1
    ∧ CronEffect.webPush "d1" "sB"
        ∈ (cronHandler (some "s") reqCron sendGoneA [rowD] [subA, subB] 2000 [taskDue]).2.1
    ∧ "d1" ∈ (dispatchDue sendGoneA (byUserOf [subA, subB]) [rowD]).sentTaskIds
    ∧ (cronHandler (some "s") reqCron sendGoneA [rowD] [subA, subB] 2000
        [taskDue]).2.1.filter isMarkEffect = [CronEffect.markNotified ["d1"]]
    ∧ (cronHandler (some "s") reqCron sendGoneA [rowD] [subA, subB] 2000 [taskDue]).2.2
        = mark_tasks_notified 2000 ["d1"] [taskDue]
    ∧ { taskDue with last_notified_at := some 2000, updated_at := 2000 }
        ∈ mark_tasks_notified 2000 ["d1"] [taskDue] := by
  have h := claim_C5_fanout_and_bulk_mark (some "s") reqCron sendGoneA [rowD] [subA, subB]
    2000 [taskDue] (by decide) (by decide)
  have hDsent : (dispatchDue sendGoneA (byUserOf [subA, subB]) [rowD]).sentTaskIds = ["d1"] := by
    decide
  refine ⟨?_, ?_, ?_, ?_, ?_, ?_⟩
  · exact h.1 rowD (by decide) subA (by decide)
  · exact h.1 rowD (by decide) subB (by decide)
  · exact (h.2.1 rowD (by decide)).mpr ⟨subB, by decide, rfl⟩
  · rw [h.2.2.2.1, hDsent]
    rfl
  · rw [h.2.2.2.2.1, hDsent]
    rfl
  · exact (h.2.2.2.2.2 taskDue (by decide) ["d1"]).1 (by decide)

/-- Claim C7 fails as stated: when no cron secret is configured, `canRun`
accepts every request, so a call with neither the scheduler-origin marker
nor any authorization header is answered 200 and issues the due-task query
instead of being rejected. -/
theorem claim_C7_counterexample :
    canRun none reqBare = true
    ∧ (cronHandler none reqBare sendGoneA [] [] 0 []).1 = 200
    ∧ (cronHandler none reqBare sendGoneA [] [] 0 []).2.1 = [CronEffect.queryDueTasks 5] :=
  ⟨rfl, rfl, rfl⟩

/-- Claim C7 amended: when a non-empty shared secret is configured, every
call that neither carries a truthy scheduler-origin marker nor presents an
authorization header that equals the secret after stripping a leading
`Bearer ` prefix is rejected with 401 before any side effect: the status is
401, the effect trace is empty — no due-task query, no push send, no
endpoint deletion, no mark-as-notified — and the tasks table is untouched.
When no secret is configured, only the marker check remains and every call
is accepted. -/
theorem claim_C7_unauthorized_rejected (s : String) (req : CronRequest)
    (send : SubscriptionRow → DueRow → PushOutcome) (due : List DueRow)
    (subs : List SubscriptionRow) (now : Int) (tasks : List TaskRecord)
    (hs : s ≠ "")
    (hmarker : jsTruthy req.xVercelCron = false)
    (htoken : ∀ a, req.authorization = some a → jsReplaceFirst a "Bearer " ≠ s) :
    canRun (some s) req = false
    ∧ cronHandler (some s) req send due subs now tasks = (401, [], tasks) := by
  have hcan : canRun (some s) req = false := by
    unfold canRun
    rw [hmarker]
    simp only [Bool.false_eq_true, if_false]
    rw [if_neg hs]
    cases ha : req.authorization with
    | none => rfl
    | some a =>
      simp only [decide_eq_false_iff_not]
      exact htoken a ha
  refine ⟨hcan, ?_⟩
  unfold cronHandler
  rw [hcan]
  have hff : (false = false) := rfl
  rw [if_pos hff]

theorem claim_C7_unauthorized_rejected_witness :
    canRun (some "s") reqBare = false
    ∧ cronHandler (some "s") reqBare sendGoneA [rowD] [subA, subB] 2000 [taskDue]
        = (401, [], [taskDue]) :=
  claim_C7_unauthorized_rejected "s" reqBare sendGoneA [rowD] [subA, subB] 2000 [taskDue]
    (by decide) rfl (fun a h => by cases h)

/-- Claim C6 is contradicted by the code: `fireSync` never consults the
in-progress flag, so two triggers with no completion between them start two
concurrent `syncNow` runs for the same owner. Concretely, from an idle
online client a timer tick starts a sync (`syncInProgress` is set), and a
change-feed notification arriving while it is still in flight passes its
guard and starts a second one — `inFlightSyncs` reaches 2. Only the manual
button trigger is suppressed while a sync is in flight. -/
theorem claim_C6_not_single_flight :
    (uiRun uiIdle [.trigger .timerTick, .trigger .changeFeed]).inFlightSyncs = 2
    ∧ (uiRun uiIdle [.trigger .timerTick]).syncInProgress = true
    ∧ triggerGuard (uiRun uiIdle [.trigger .timerTick]) .changeFeed = true
    ∧ triggerGuard (uiRun uiIdle [.trigger .timerTick]) .userClick = false :=
  ⟨rfl, rfl, rfl, rfl⟩
